import Mathlib

/-!
Verification of the Sudoku solver in `src/solver.js`.

The JavaScript module is embedded shallowly: grids are lists of lists of
naturals, JavaScript strings are lists of characters, and the module-level
mutable variable `gridPrimitive` is threaded explicitly through the functions
that read or write it.
-/

set_option maxHeartbeats 4000000
set_option maxRecDepth 10000

namespace SudokuSolver

/-- A Sudoku grid as in `src/solver.js`: a 2-dimensional 9x9 array of digits,
represented as an array of row arrays. -/
abbrev Grid := List (List Nat)

/-- JavaScript strings, modelled as lists of characters. -/
abbrev Str := List Char

/-- Cell access `grid[row][column]`. On the well-formed 9x9 grids (`wf9`) that every
theorem below quantifies over, all accesses the code performs are in bounds,
so the `getD` defaults are never reached there. -/
def cell (g : Grid) (r c : Nat) : Nat := (g.getD r []).getD c 0

/-- Cell update `grid[row][column] = v`, the in-place mutation, modelled functionally. -/
def setCell (g : Grid) (r c v : Nat) : Grid := g.set r ((g.getD r []).set c v)

/-- The grid shape all claims quantify over: 9 rows of 9 entries each. -/
def wf9 (g : Grid) : Prop := g.length = 9 ∧ ∀ row ∈ g, row.length = 9

/-- All entries are digits 0-9 (0 is the empty sentinel). -/
def entriesLe9 (g : Grid) : Prop := ∀ row ∈ g, ∀ v ∈ row, v ≤ 9

/-- All entries are digits 1-9 (no empty sentinel anywhere). -/
def entries1to9 (g : Grid) : Prop := ∀ row ∈ g, ∀ v ∈ row, 1 ≤ v ∧ v ≤ 9

/-- The function `isValidPlacement` (src/solver.js lines 8-43): reject if `number` occurs
anywhere in the row array `grid[row]`, anywhere in column `column`, or anywhere
in the 3x3 subgrid with origin `(3*(row/3), 3*(column/3))`; accept otherwise. -/
def isValidPlacement (grid : Grid) (number row column : Nat) : Bool :=
  ((grid.getD row []).all fun numberInRow => !(number == numberInRow)) &&
  ((List.range 9).all fun i => !(number == cell grid i column)) &&
  (let subgridRow := row / 3
   let subgridColumn := column / 3
   (List.range 3).all fun dr =>
     (List.range 3).all fun dc =>
       !(number == cell grid (subgridRow * 3 + dr) (subgridColumn * 3 + dc)))

/-- The double loop of `solveGrid` (lines 60-62): the first position in
row-major order whose cell is 0, if any. -/
def findEmpty (g : Grid) : Option (Nat × Nat) :=
  ((List.range 81).map fun i => (i / 9, i % 9)).find? fun rc => cell g rc.1 rc.2 == 0

/-- JavaScript number-to-string conversion (decimal). -/
def natToStr (n : Nat) : Str := (Nat.repr n).data

/-- JavaScript `Array.prototype.join(',')`. -/
def joinComma : List Str → Str
  | [] => []
  | [s] => s
  | s :: t :: rest => s ++ ',' :: joinComma (t :: rest)

/-- The template literal `${grid}` (line 85): an array of arrays stringifies as
the rows joined with `','`, each row itself joined with `','`. -/
def serializeGrid (g : Grid) : Str :=
  joinComma (g.map fun row => joinComma (row.map natToStr))

/-- JavaScript `String.prototype.split(',')`. -/
def splitComma : Str → List Str
  | [] => [[]]
  | c :: rest =>
    if c = ',' then [] :: splitComma rest
    else
      match splitComma rest with
      | [] => [[c]]
      | t :: ts => (c :: t) :: ts

/-- The numeric value of a decimal digit character, if it is one. -/
def charDigit (c : Char) : Option Nat :=
  if 48 ≤ c.toNat && c.toNat ≤ 57 then some (c.toNat - 48) else none

def parseIntAux : Str → Nat → Nat
  | [], acc => acc
  | c :: rest, acc =>
    match charDigit c with
    | some d => parseIntAux rest (acc * 10 + d)
    | none => acc

/-- JavaScript `parseInt` on the strings this repository feeds it: reads the
leading run of decimal digits; `none` models `NaN` (no leading digit). The
whitespace, sign and radix features of `parseInt` are never exercised here. -/
def parseInt (s : Str) : Option Nat :=
  match s with
  | [] => none
  | c :: rest =>
    match charDigit c with
    | some d => some (parseIntAux rest d)
    | none => none

/-- The step `parseInt(rawGridNumbers.shift())` (line 105): remove and parse the first
token. Shifting an exhausted array yields `undefined`, whose `parseInt` is
`NaN`; `NaN` has no `Nat` representative and is modelled as 0 — every token the
repository actually parses is a digit string, where the model is exact. -/
def shiftParse : List Str → Nat × List Str
  | [] => (0, [])
  | t :: rest => ((parseInt t).getD 0, rest)

/-- The inner loop of `gridPrimitiveToArray`: consume 9 tokens into one row. -/
def buildRow : Nat → List Str → List Nat × List Str
  | 0, l => ([], l)
  | k + 1, l =>
    let p := shiftParse l
    let q := buildRow k p.2
    (p.1 :: q.1, q.2)

/-- The outer loop of `gridPrimitiveToArray`: build 9 rows. -/
def buildRows : Nat → List Str → Grid
  | 0, _ => []
  | k + 1, l =>
    let p := buildRow 9 l
    p.1 :: buildRows k p.2

/-- The function `gridPrimitiveToArray` (src/solver.js lines 94-110): split the string on
`','` and consume the tokens nine at a time into nine rows. -/
def gridPrimitiveToArray (s : Str) : Grid := buildRows 9 (splitComma s)

/-- The observable outcome of one call to `solveGrid`:
`ret` is the JavaScript return value — `solveGrid` only ever executes a bare
`return` or falls off the end, i.e. returns `undefined`, modelled `none`;
`grid` is the caller's array as the call leaves it; `prim` is the module-level
variable `gridPrimitive` (line 47) afterwards, `none` while still `undefined`. -/
structure SolveOut where
  ret : Option Bool
  grid : Grid
  prim : Option Str
deriving DecidableEq

/-- One unfolding of the body of `solveGrid` (src/solver.js lines 57-86), with
`recur` standing for the recursive call. The double loop over `row`, `column`
stopping at the first 0 is `findEmpty`; the loop over `numberToTry` from 1 to 9
is the fold over `List.range 9`. On a valid placement the digit is written, the
recursive call runs (its return value is discarded, line 70), and the cell is
unconditionally reset to 0 (line 71). If no empty cell exists, the grid is
stored into `gridPrimitive` as the string `${grid}` (line 85). -/
def solveStep (recur : Grid → Option Str → SolveOut) (grid : Grid)
    (prim : Option Str) : SolveOut :=
  match findEmpty grid with
  | some (row, column) =>
    let st := (List.range 9).foldl
      (fun (st : Grid × Option Str) k =>
        let numberToTry := k + 1
        if isValidPlacement st.1 numberToTry row column then
          let out := recur (setCell st.1 row column numberToTry) st.2
          (setCell out.grid row column 0, out.prim)
        else st)
      (grid, prim)
    ⟨none, st.1, st.2⟩
  | none => ⟨none, grid, some (serializeGrid grid)⟩

/-- The solver `solveGrid` with an explicit recursion-depth budget. The fuel is an
artifact of the embedding: the depth-bound theorem for claim C9 shows any
budget above the number of empty cells — in particular 82 for a 9x9 grid —
yields the behaviour of the unbounded JavaScript recursion. -/
def solveGridFuel : Nat → Grid → Option Str → SolveOut
  | 0, grid, prim => ⟨none, grid, prim⟩
  | fuel + 1, grid, prim => solveStep (solveGridFuel fuel) grid prim

/-- The function `solveGrid` (src/solver.js lines 57-86) on a 9x9 grid. -/
def solveGrid (grid : Grid) (prim : Option Str) : SolveOut :=
  solveGridFuel 82 grid prim

/-- The function `validateFullGrid` (src/solver.js lines 118-170): every row dedups to 9
distinct values (`[...new Set(grid[i])].length`), every column likewise, and for
every cell no distinct cell of its 3x3 subgrid holds the same value. -/
def validateFullGrid (grid : Grid) : Bool :=
  ((List.range 9).all fun i => (grid.getD i []).dedup.length == 9) &&
  ((List.range 9).all fun column =>
    ((List.range 9).map fun row => cell grid row column).dedup.length == 9) &&
  ((List.range 9).all fun column =>
    (List.range 9).all fun row =>
      let subgridRow := row / 3
      let subgridColumn := column / 3
      (List.range 3).all fun dr =>
        (List.range 3).all fun dc =>
          !(cell grid row column ==
              cell grid (subgridRow * 3 + dr) (subgridColumn * 3 + dc)) ||
          (row == subgridRow * 3 + dr && column == subgridColumn * 3 + dc))

/-- The JavaScript truthiness test `!gridPrimitive` (line 178): `undefined` and
the empty string are the falsy values a string variable can hold. -/
def jsFalsy : Option Str → Bool
  | none => true
  | some s => s.isEmpty

/-- The function `getGridSolution` (src/solver.js lines 176-189). The module-level variable
`gridPrimitive` is threaded explicitly: the function receives its value at call
time and returns the pair (call result, value afterwards). A `none` first
component is the `false` the code returns on its two failure paths. -/
def getGridSolution (grid : Grid) (prim : Option Str) : Option Grid × Option Str :=
  let out := solveGrid grid prim
  if jsFalsy out.prim then (none, out.prim)
  else
    let solution := gridPrimitiveToArray (out.prim.getD [])
    if validateFullGrid solution then (some solution, out.prim)
    else (none, out.prim)

/-- Number of empty (0) cells among the 81 positions of a grid. -/
def countZeros (g : Grid) : Nat :=
  ((List.range 81).filter fun i => cell g (i / 9) (i % 9) == 0).length

/-- Row `r` of a grid, as read by the row checks of the code. -/
def rowList (g : Grid) (r : Nat) : List Nat := g.getD r []

/-- Column `c` of a grid, as assembled by the column checks of the code. -/
def colList (g : Grid) (c : Nat) : List Nat := (List.range 9).map fun r => cell g r c

/-- The nine cells of the 3x3 box with box coordinates `(br, bc)`. -/
def boxList (g : Grid) (br bc : Nat) : List Nat :=
  (List.range 9).map fun k => cell g (br * 3 + k / 3) (bc * 3 + k % 3)

/-- The values `gridPrimitive` can hold in any run of the module: still
`undefined`, or the serialisation of some completely filled 9x9 grid of digits
1-9 stored by an earlier success of `solveGrid`. -/
def primOK (p : Option Str) : Prop :=
  p = none ∨ ∃ g, wf9 g ∧ entries1to9 g ∧ p = some (serializeGrid g)

/-- Modelled from the spec: the first-success-wins backtracking step of spec
section 4.2 — on the first empty cell in row-major order try digits 1-9 in
ascending order, recurse on a validator-approved tentative digit, and propagate
the first success immediately, not trying further digits. Used to express the
"row-major, ascending-digit, first-success" ordering of spec section 9. -/
def specStep (recur : Grid → Option Grid) (g : Grid) : Option Grid :=
  match findEmpty g with
  | none => some g
  | some (r, c) =>
    (List.range 9).foldl
      (fun acc k =>
        match acc with
        | some s => some s
        | none =>
          if isValidPlacement g (k + 1) r c then recur (setCell g r c (k + 1))
          else none)
      none

/-- Modelled from the spec: the solver of spec section 4.2, with the same
depth budget convention as `solveGridFuel`. -/
def specSolve : Nat → Grid → Option Grid
  | 0, _ => none
  | fuel + 1, g => specStep (specSolve fuel) g

/-! ### Concrete grids used by counterexamples and witnesses -/

/-- A fully solved, valid Sudoku grid. -/
def gridA : Grid :=
  [[1,2,3,4,5,6,7,8,9],
   [4,5,6,7,8,9,1,2,3],
   [7,8,9,1,2,3,4,5,6],
   [2,3,4,5,6,7,8,9,1],
   [5,6,7,8,9,1,2,3,4],
   [8,9,1,2,3,4,5,6,7],
   [3,4,5,6,7,8,9,1,2],
   [6,7,8,9,1,2,3,4,5],
   [9,1,2,3,4,5,6,7,8]]

/-- Grid `gridA` with its first cell emptied: a solvable puzzle with the unique
solution `gridA`. -/
def gridA0 : Grid :=
  [[0,2,3,4,5,6,7,8,9],
   [4,5,6,7,8,9,1,2,3],
   [7,8,9,1,2,3,4,5,6],
   [2,3,4,5,6,7,8,9,1],
   [5,6,7,8,9,1,2,3,4],
   [8,9,1,2,3,4,5,6,7],
   [3,4,5,6,7,8,9,1,2],
   [6,7,8,9,1,2,3,4,5],
   [9,1,2,3,4,5,6,7,8]]

/-- An unsolvable grid: cell (0,0) is empty, its row already holds 2-9 and its
column holds a 1, so no digit can be placed there. -/
def gridB : Grid :=
  [[0,2,3,4,5,6,7,8,9],
   [1,1,1,1,1,1,1,1,1],
   [1,1,1,1,1,1,1,1,1],
   [1,1,1,1,1,1,1,1,1],
   [1,1,1,1,1,1,1,1,1],
   [1,1,1,1,1,1,1,1,1],
   [1,1,1,1,1,1,1,1,1],
   [1,1,1,1,1,1,1,1,1],
   [1,1,1,1,1,1,1,1,1]]

/-- A fully solved, valid grid containing the unavoidable rectangle
`(0,0)=1, (0,3)=2, (1,0)=2, (1,3)=1` (rows 0 and 1 lie in one band, columns 0
and 3 in different stacks). -/
def gridR : Grid :=
  [[1,4,5,2,6,7,3,8,9],
   [2,3,8,1,9,4,5,6,7],
   [6,7,9,3,5,8,1,2,4],
   [3,1,2,4,7,5,6,9,8],
   [4,5,6,8,1,9,2,7,3],
   [8,9,7,6,2,3,4,1,5],
   [5,2,3,7,8,1,9,4,6],
   [7,6,4,9,3,2,8,5,1],
   [9,8,1,5,4,6,7,3,2]]

/-- Grid `gridR` with the rectangle's two values swapped: the only other completion
of `gridRPuzzle`. -/
def gridRSwap : Grid :=
  [[2,4,5,1,6,7,3,8,9],
   [1,3,8,2,9,4,5,6,7],
   [6,7,9,3,5,8,1,2,4],
   [3,1,2,4,7,5,6,9,8],
   [4,5,6,8,1,9,2,7,3],
   [8,9,7,6,2,3,4,1,5],
   [5,2,3,7,8,1,9,4,6],
   [7,6,4,9,3,2,8,5,1],
   [9,8,1,5,4,6,7,3,2]]

/-- The underdetermined puzzle obtained by emptying the rectangle cells of
`gridR`: exactly the two completions `gridR` (first in row-major,
ascending-digit order) and `gridRSwap` (second). -/
def gridRPuzzle : Grid :=
  [[0,4,5,0,6,7,3,8,9],
   [0,3,8,0,9,4,5,6,7],
   [6,7,9,3,5,8,1,2,4],
   [3,1,2,4,7,5,6,9,8],
   [4,5,6,8,1,9,2,7,3],
   [8,9,7,6,2,3,4,1,5],
   [5,2,3,7,8,1,9,4,6],
   [7,6,4,9,3,2,8,5,1],
   [9,8,1,5,4,6,7,3,2]]

instance : DecidablePred wf9 := fun g =>
  decidable_of_iff (g.length = 9 ∧ ∀ row ∈ g, row.length = 9) Iff.rfl

instance : DecidablePred entriesLe9 := fun g =>
  decidable_of_iff (∀ row ∈ g, ∀ v ∈ row, v ≤ 9) Iff.rfl

instance : DecidablePred entries1to9 := fun g =>
  decidable_of_iff (∀ row ∈ g, ∀ v ∈ row, 1 ≤ v ∧ v ≤ 9) Iff.rfl

/-! ### Basic lemmas about cells, updates and the empty-cell scan -/

theorem set_getD_self {α : Type} (l : List α) (i : Nat) (d : α) :
    l.set i (l.getD i d) = l := by
  induction l generalizing i with
  | nil => rfl
  | cons a t ih =>
    cases i with
    | zero => rfl
    | succ n =>
      show a :: t.set n (t.getD n d) = a :: t
      rw [ih]

theorem cell_lt_cases (g : Grid) (r : Nat) :
    (g.set r ((g.getD r []).set 0 0)).length = g.length := by
  simp

theorem setCell_of_cell_zero (g : Grid) (r c v : Nat) (h : cell g r c = 0) :
    setCell (setCell g r c v) r c 0 = g := by
  unfold setCell cell at *
  by_cases hr : r < g.length
  · have hrow : (g.set r ((g.getD r []).set c v)).getD r [] = (g.getD r []).set c v := by
      simp [List.getD_eq_getElem?_getD, List.getElem?_set_self (by simpa using hr)]
    rw [hrow, List.set_set, List.set_set]
    have : (g.getD r []).set c 0 = g.getD r [] := by
      have := set_getD_self (g.getD r []) c 0
      rwa [h] at this
    rw [this, set_getD_self]
  · have hle : g.length ≤ r := Nat.le_of_not_lt hr
    rw [List.set_eq_of_length_le hle, List.set_eq_of_length_le hle]

theorem cell_setCell_ne (g : Grid) (r c v r' c' : Nat)
    (h : r ≠ r' ∨ c ≠ c') : cell (setCell g r c v) r' c' = cell g r' c' := by
  unfold setCell cell
  by_cases hr : r = r'
  · subst hr
    have hc : c ≠ c' := h.resolve_left (by simp)
    by_cases hlen : r < g.length
    · have hrow : (g.set r ((g.getD r []).set c v)).getD r [] = (g.getD r []).set c v := by
        simp [List.getD_eq_getElem?_getD, List.getElem?_set_self (by simpa using hlen)]
      rw [hrow]
      simp [List.getD_eq_getElem?_getD, List.getElem?_set_ne hc]
    · rw [List.set_eq_of_length_le (Nat.le_of_not_lt hlen)]
  · simp [List.getD_eq_getElem?_getD, List.getElem?_set_ne hr]

theorem cell_setCell_self (g : Grid) (r c v : Nat)
    (hr : r < g.length) (hc : c < (g.getD r []).length) :
    cell (setCell g r c v) r c = v := by
  unfold setCell cell
  have hrow : (g.set r ((g.getD r []).set c v)).getD r [] = (g.getD r []).set c v := by
    simp [List.getD_eq_getElem?_getD, List.getElem?_set_self (by simpa using hr)]
  rw [hrow]
  simp [List.getD_eq_getElem?_getD, List.getElem?_set_self (by simpa using hc)]

theorem getD_mem_of_lt (g : Grid) (r : Nat) (hr : r < g.length) : g.getD r [] ∈ g := by
  have : g.getD r [] = g[r] := by
    simp [List.getD_eq_getElem?_getD, List.getElem?_eq_getElem hr]
  rw [this]; exact List.getElem_mem hr

theorem setCell_of_length_le (g : Grid) (r c v : Nat) (h : g.length ≤ r) :
    setCell g r c v = g := by
  unfold setCell
  exact List.set_eq_of_length_le h

theorem wf9_setCell {g : Grid} (hg : wf9 g) (r c v : Nat) : wf9 (setCell g r c v) := by
  obtain ⟨hlen, hrows⟩ := hg
  by_cases hr : r < g.length
  · refine ⟨by simpa [setCell] using hlen, ?_⟩
    intro row hrow
    rcases List.mem_or_eq_of_mem_set hrow with hmem | heq
    · exact hrows row hmem
    · subst heq
      rw [List.length_set]
      exact hrows _ (getD_mem_of_lt g r hr)
  · rw [setCell_of_length_le g r c v (Nat.le_of_not_lt hr)]
    exact ⟨hlen, hrows⟩

theorem entriesLe9_setCell {g : Grid} (hg : entriesLe9 g) {v : Nat} (hv : v ≤ 9)
    (r c : Nat) : entriesLe9 (setCell g r c v) := by
  by_cases hr : r < g.length
  · intro row hrow x hx
    rcases List.mem_or_eq_of_mem_set hrow with hmem | heq
    · exact hg row hmem x hx
    · subst heq
      rcases List.mem_or_eq_of_mem_set hx with hmem' | heq'
      · exact hg _ (getD_mem_of_lt g r hr) x hmem'
      · exact heq' ▸ hv
  · rw [setCell_of_length_le g r c v (Nat.le_of_not_lt hr)]
    exact hg

theorem findEmpty_some {g : Grid} {r c : Nat} (h : findEmpty g = some (r, c)) :
    r < 9 ∧ c < 9 ∧ cell g r c = 0 := by
  unfold findEmpty at h
  have hmem := List.mem_of_find?_eq_some h
  have hp := List.find?_some h
  simp only [List.mem_map, List.mem_range] at hmem
  obtain ⟨i, hi, hieq⟩ := hmem
  rw [Prod.ext_iff] at hieq
  obtain ⟨hr, hc⟩ := hieq
  simp only at hr hc
  refine ⟨?_, ?_, ?_⟩
  · omega
  · omega
  · simpa using hp

theorem findEmpty_none {g : Grid} (h : findEmpty g = none) :
    ∀ r c, r < 9 → c < 9 → cell g r c ≠ 0 := by
  intro r c hr hc
  unfold findEmpty at h
  rw [List.find?_eq_none] at h
  have hmem : (r, c) ∈ (List.range 81).map fun i => (i / 9, i % 9) := by
    refine List.mem_map.2 ⟨r * 9 + c, List.mem_range.2 (by omega), ?_⟩
    have h1 : (r * 9 + c) / 9 = r := by omega
    have h2 : (r * 9 + c) % 9 = c := by omega
    rw [h1, h2]
  have := h _ hmem
  simpa using this

theorem foldl_induction {α β : Type} (f : β → α → β) (P : β → Prop)
    (l : List α) (init : β) (h0 : P init)
    (hstep : ∀ b a, a ∈ l → P b → P (f b a)) : P (l.foldl f init) := by
  induction l generalizing init with
  | nil => exact h0
  | cons a t ih =>
    exact ih (f init a) (hstep init a (by simp) h0)
      (fun b x hx hb => hstep b x (by simp [hx]) hb)

/-- The solver always hands the caller's array back in its original state:
every tentative digit is reset to 0 on line 71, whether or not the recursive
call found a solution. -/
theorem solveGridFuel_grid (fuel : Nat) : ∀ (g : Grid) (prim : Option Str),
    (solveGridFuel fuel g prim).grid = g := by
  induction fuel with
  | zero => intro g prim; rfl
  | succ fuel ih =>
    intro g prim
    show (solveStep (solveGridFuel fuel) g prim).grid = g
    unfold solveStep
    cases hf : findEmpty g with
    | none => rfl
    | some rc =>
      obtain ⟨r, c⟩ := rc
      have hcell : cell g r c = 0 := (findEmpty_some hf).2.2
      simp only
      refine foldl_induction _ (fun st : Grid × Option Str => st.1 = g) _ _ rfl ?_
      intro st k _ hst
      by_cases hvalid : isValidPlacement st.1 (k + 1) r c
      · simp only [hvalid, if_true]
        rw [ih, hst]
        exact setCell_of_cell_zero g r c (k + 1) hcell
      · simp only [hvalid, if_false]
        exact hst

/-- The solver never returns a value: both its `return` statements are bare
and the final statement falls off the end. -/
theorem solveGridFuel_ret (fuel : Nat) (g : Grid) (prim : Option Str) :
    (solveGridFuel fuel g prim).ret = none := by
  cases fuel with
  | zero => rfl
  | succ fuel =>
    show (solveStep (solveGridFuel fuel) g prim).ret = none
    unfold solveStep
    cases findEmpty g with
    | none => rfl
    | some rc => obtain ⟨r, c⟩ := rc; rfl

/-- The variable `gridPrimitive` after a call is either exactly its previous value or the
serialisation of some grid stored at line 85. -/
theorem solveGridFuel_prim_shape (fuel : Nat) : ∀ (g : Grid) (prim : Option Str),
    (solveGridFuel fuel g prim).prim = prim ∨
      ∃ g2, (solveGridFuel fuel g prim).prim = some (serializeGrid g2) := by
  induction fuel with
  | zero => intro g prim; exact Or.inl rfl
  | succ fuel ih =>
    intro g prim
    show (solveStep (solveGridFuel fuel) g prim).prim = prim ∨
      ∃ g2, (solveStep (solveGridFuel fuel) g prim).prim = some (serializeGrid g2)
    unfold solveStep
    cases hf : findEmpty g with
    | none => exact Or.inr ⟨g, rfl⟩
    | some rc =>
      obtain ⟨r, c⟩ := rc
      simp only
      refine foldl_induction _
        (fun st : Grid × Option Str =>
          st.2 = prim ∨ ∃ g2, st.2 = some (serializeGrid g2)) _ _ (Or.inl rfl) ?_
      intro st k _ hst
      by_cases hvalid : isValidPlacement st.1 (k + 1) r c
      · simp only [hvalid, if_true]
        rcases ih (setCell st.1 r c (k + 1)) st.2 with h | h
        · rw [h]; exact hst
        · exact Or.inr h
      · simp only [hvalid, if_false]
        exact hst

/-! ### Claim C1 -/

/-- C1, counterexample: an underdetermined puzzle (two completions) for which
the solution returned is NOT the first one in row-major, ascending-digit order.
The spec-modelled first-success solver returns `gridR` — the first solution in
that order — while the code returns `gridRSwap`, because after a successful
recursive call it resets the cell and keeps searching, so the last solution
found overwrites `gridPrimitive`. -/
theorem solveGrid_underdetermined_returns_later_solution :
    specSolve 82 gridRPuzzle = some gridR ∧
    (getGridSolution gridRPuzzle none).1 = some gridRSwap ∧
    validateFullGrid gridR = true ∧
    gridRSwap ≠ gridR := by
  refine ⟨by decide, by decide, by decide, by decide⟩

/-- C1 (amended): the recursive call signals nothing, and the solver
unconditionally resets the tried cell to 0 and goes on to further digits; after
`solveGrid` returns, the cell it worked on is empty again — the digit is never
left committed — and the solution returned for an underdetermined puzzle is
therefore not necessarily the first one in row-major, ascending-digit order
(at the concrete two-solution puzzle it is the other, later one). -/
theorem solveGrid_always_resets_tried_cell (fuel : Nat) (g : Grid)
    (prim : Option Str) (r c : Nat) (h : findEmpty g = some (r, c)) :
    cell ((solveGridFuel fuel g prim).grid) r c = 0 := by
  rw [solveGridFuel_grid]
  exact (findEmpty_some h).2.2

theorem solveGrid_always_resets_tried_cell_witness :
    findEmpty gridA0 = some (0, 0) ∧
    cell ((solveGridFuel 82 gridA0 none).grid) 0 0 = 0 :=
  ⟨by decide, solveGrid_always_resets_tried_cell 82 gridA0 none 0 0 (by decide)⟩

/-! ### Claim C2 -/

/-- C2, counterexample: on a solvable 9x9 grid the search succeeds (the result
snapshot is stored) yet the caller's grid is NOT left fully solved in place:
cell (0,0) of `gridA0` is still the empty sentinel afterwards. -/
theorem solveGrid_success_leaves_grid_unsolved :
    (solveGrid gridA0 none).prim ≠ none ∧
    cell ((solveGrid gridA0 none).grid) 0 0 = 0 := by
  refine ⟨by decide, by decide⟩

/-- C2 (amended): after the solver returns, the caller's 9x9 grid is always
restored to its original state — every cell equal to its input value — whether
or not a solution was found; a found solution is communicated only through the
`gridPrimitive` snapshot. -/
theorem solveGrid_restores_caller_grid (g : Grid) (prim : Option Str)
    (h : wf9 g) : (solveGrid g prim).grid = g :=
  solveGridFuel_grid 82 g prim

theorem solveGrid_restores_caller_grid_witness :
    wf9 gridA0 ∧ (solveGrid gridA0 none).grid = gridA0 :=
  ⟨by decide, solveGrid_restores_caller_grid gridA0 none (by decide)⟩

/-! ### Claim C3 -/

/-- C3, code bug: `gridPrimitive` is a process-wide slot that `getGridSolution`
never clears. `gridB` is unsolvable — an exhaustive search stores nothing, and
a fresh call correctly reports failure — but after an earlier call has solved
`gridA`, calling `getGridSolution` on the unsolvable `gridB` returns the
previous call's solution instead of the failure value. -/
theorem getGridSolution_returns_stale_solution :
    (solveGrid gridB none).prim = none ∧
    (getGridSolution gridB none).1 = none ∧
    (getGridSolution gridA none).1 = some gridA ∧
    (getGridSolution gridB (getGridSolution gridA none).2).1 = some gridA := by
  refine ⟨by decide, by decide, by decide, by decide⟩

/-! ### Claim C4 -/

/-- C4, counterexample: on a solvable grid the search succeeds — the snapshot
is stored — but the function's return value is `undefined`, not `true`. -/
theorem solveGrid_returns_no_boolean_on_success :
    (solveGrid gridA0 none).prim ≠ none ∧
    (solveGrid gridA0 none).ret ≠ some true := by
  refine ⟨by decide, by decide⟩

/-- C4 (amended): `solveGrid` always returns `undefined` — it communicates no
boolean; success is signalled only by `gridPrimitive`, which is either left
exactly as it was (failure) or holds the serialisation of a stored grid. -/
theorem solveGrid_returns_undefined (fuel : Nat) (g : Grid) (prim : Option Str) :
    (solveGridFuel fuel g prim).ret = none ∧
    ((solveGridFuel fuel g prim).prim = prim ∨
      ∃ g2, (solveGridFuel fuel g prim).prim = some (serializeGrid g2)) :=
  ⟨solveGridFuel_ret fuel g prim, solveGridFuel_prim_shape fuel g prim⟩

/-! ### Claim C6, counterexample -/

/-- C6, counterexample: after an earlier call solved `gridA`, a call on the
unsolvable `gridB` returns `gridA` — whose cell (2,0) is 7, although the input
`gridB` has the non-zero clue 1 there. Clues are not preserved across the
stale-slot path. -/
theorem getGridSolution_stale_breaks_clue_preservation :
    (getGridSolution gridB (getGridSolution gridA none).2).1 = some gridA ∧
    cell gridB 2 0 = 1 ∧ cell gridA 2 0 = 7 := by
  refine ⟨by decide, by decide, by decide⟩

/-! ### Claim C7: the placement validator -/

theorem cell_eq_getElem {g : Grid} (hg : wf9 g) {r c : Nat} (hr : r < 9)
    (hc : c < 9) :
    ∃ h : c < (g.getD r []).length, cell g r c = (g.getD r []).get ⟨c, h⟩ := by
  have hrg : r < g.length := by rw [hg.1]; exact hr
  have hrlen : (g.getD r []).length = 9 := hg.2 _ (getD_mem_of_lt g r hrg)
  refine ⟨by omega, ?_⟩
  unfold cell
  rw [List.getD_eq_getElem?_getD, List.getElem?_eq_getElem (by omega)]
  simp [List.get_eq_getElem]

theorem cell_mem_row {g : Grid} (hg : wf9 g) {r c : Nat} (hr : r < 9)
    (hc : c < 9) : cell g r c ∈ g.getD r [] := by
  obtain ⟨hlt, hcell⟩ := cell_eq_getElem hg hr hc
  rw [hcell]
  exact List.get_mem _ _ _

theorem mem_row_cell {g : Grid} (hg : wf9 g) {r : Nat} (hr : r < 9) {x : Nat}
    (hx : x ∈ g.getD r []) : ∃ j, j < 9 ∧ cell g r j = x := by
  have hrg : r < g.length := by rw [hg.1]; exact hr
  have hrlen : (g.getD r []).length = 9 := hg.2 _ (getD_mem_of_lt g r hrg)
  obtain ⟨j, hjlen, hjx⟩ := List.mem_iff_getElem.1 hx
  have hj9 : j < 9 := by omega
  obtain ⟨hlt, hcell⟩ := cell_eq_getElem hg hr hj9
  exact ⟨j, hj9, by rw [hcell, List.get_eq_getElem, hjx]⟩

/-- C7: on a well-formed 9x9 grid of digits 0-9, `isValidPlacement` accepts a
digit at a cell exactly when the digit occurs nowhere in the target row,
nowhere in the target column, and nowhere in the 3x3 box with origin
`(3*(row/3), 3*(column/3))`; equivalently it rejects exactly when the digit
occurs somewhere in at least one of the three regions. -/
theorem isValidPlacement_iff (g : Grid) (d r c : Nat) (hg : wf9 g)
    (hent : entriesLe9 g) (hd1 : 1 ≤ d) (hd9 : d ≤ 9) (hr : r < 9) (hc : c < 9) :
    isValidPlacement g d r c = true ↔
      ((∀ j, j < 9 → cell g r j ≠ d) ∧
       (∀ i, i < 9 → cell g i c ≠ d) ∧
       (∀ i j, i < 3 → j < 3 →
         cell g (3 * (r / 3) + i) (3 * (c / 3) + j) ≠ d)) := by
  unfold isValidPlacement
  simp only [Bool.and_eq_true, List.all_eq_true, List.mem_range,
    Bool.not_eq_true', beq_eq_false_iff_ne]
  constructor
  · rintro ⟨⟨hrow, hcol⟩, hbox⟩
    refine ⟨?_, ?_, ?_⟩
    · intro j hj hEq
      exact hrow _ (cell_mem_row hg hr hj) hEq.symm
    · intro i hi hEq
      exact hcol i hi hEq.symm
    · intro i j hi hj hEq
      have := hbox i hi j hj
      rw [Nat.mul_comm (r / 3) 3, Nat.mul_comm (c / 3) 3] at this
      exact this hEq.symm
  · rintro ⟨hrow, hcol, hbox⟩
    refine ⟨⟨?_, ?_⟩, ?_⟩
    · intro x hx hEq
      obtain ⟨j, hj9, hjx⟩ := mem_row_cell hg hr hx
      exact hrow j hj9 (by rw [hjx, ← hEq])
    · intro i hi hEq
      exact hcol i hi hEq.symm
    · intro i hi j hj hEq
      have := hbox i j hi hj
      rw [Nat.mul_comm 3 (r / 3), Nat.mul_comm 3 (c / 3)] at this
      exact this hEq.symm

theorem isValidPlacement_iff_witness :
    wf9 gridA0 ∧ entriesLe9 gridA0 ∧ 1 ≤ 1 ∧ 1 ≤ 9 ∧ 0 < 9 ∧ 0 < 9 ∧
      (isValidPlacement gridA0 1 0 0 = true ↔
        ((∀ j, j < 9 → cell gridA0 0 j ≠ 1) ∧
         (∀ i, i < 9 → cell gridA0 i 0 ≠ 1) ∧
         (∀ i j, i < 3 → j < 3 →
           cell gridA0 (3 * (0 / 3) + i) (3 * (0 / 3) + j) ≠ 1))) :=
  ⟨by decide, by decide, by decide, by decide, by decide, by decide,
    isValidPlacement_iff gridA0 1 0 0 (by decide) (by decide) (by decide)
      (by decide) (by decide) (by decide)⟩

/-! ### Claim C8: the full-grid validator -/

theorem dedup_length_eq_iff {l : List Nat} : l.dedup.length = l.length ↔ l.Nodup := by
  constructor
  · intro h
    exact List.dedup_eq_self.1 ((List.dedup_sublist l).eq_of_length h)
  · intro h
    rw [List.dedup_eq_self.2 h]

theorem rowList_length {g : Grid} (hg : wf9 g) {r : Nat} (hr : r < 9) :
    (rowList g r).length = 9 := by
  have hrg : r < g.length := by rw [hg.1]; exact hr
  exact hg.2 _ (getD_mem_of_lt g r hrg)

/-- The characterisation of `validateFullGrid` on a well-formed grid: true
exactly when all nine rows, all nine columns and all nine boxes consist of
pairwise distinct values. -/
theorem validateFullGrid_eq_true_iff (g : Grid) (hg : wf9 g) :
    validateFullGrid g = true ↔
      ((∀ r, r < 9 → (rowList g r).Nodup) ∧
       (∀ c, c < 9 → (colList g c).Nodup) ∧
       (∀ br bc, br < 3 → bc < 3 → (boxList g br bc).Nodup)) := by
  unfold validateFullGrid
  simp only [Bool.and_eq_true, List.all_eq_true, List.mem_range, beq_iff_eq,
    Bool.or_eq_true, Bool.not_eq_true', beq_eq_false_iff_ne]
  constructor
  · rintro ⟨⟨hrows, hcols⟩, hbox⟩
    refine ⟨?_, ?_, ?_⟩
    · intro r hr
      have hlen := rowList_length hg hr
      exact dedup_length_eq_iff.1 (by rw [hlen]; exact hrows r hr)
    · intro c hc
      have hlen : (colList g c).length = 9 := by simp [colList]
      exact dedup_length_eq_iff.1 (by rw [hlen]; exact hcols c hc)
    · intro br bc hbr hbc
      unfold boxList
      refine (List.nodup_map_iff_inj_on (List.nodup_range 9)).2 ?_
      intro k1 hk1 k2 hk2 hf
      rw [List.mem_range] at hk1 hk2
      have h := hbox (bc * 3 + k1 % 3) (by omega) (br * 3 + k1 / 3) (by omega)
        (k2 / 3) (by omega) (k2 % 3) (by omega)
      have e1 : (br * 3 + k1 / 3) / 3 * 3 + k2 / 3 = br * 3 + k2 / 3 := by omega
      have e2 : (bc * 3 + k1 % 3) / 3 * 3 + k2 % 3 = bc * 3 + k2 % 3 := by omega
      rw [e1, e2] at h
      rcases h with h | h
      · exact absurd hf h
      · omega
  · rintro ⟨hrows, hcols, hbox⟩
    refine ⟨⟨?_, ?_⟩, ?_⟩
    · intro r hr
      have hlen := rowList_length hg hr
      rw [← hlen]
      exact dedup_length_eq_iff.2 (hrows r hr)
    · intro c hc
      have hlen : (colList g c).length = 9 := by simp [colList]
      rw [show (9 : Nat) = (colList g c).length from hlen.symm]
      exact dedup_length_eq_iff.2 (hcols c hc)
    · intro col hcol row hrow dr hdr dc hdc
      by_cases hEq : cell g row col = cell g (row / 3 * 3 + dr) (col / 3 * 3 + dc)
      · right
        have hnd := hbox (row / 3) (col / 3) (by omega) (by omega)
        unfold boxList at hnd
        have hinj := (List.nodup_map_iff_inj_on (List.nodup_range 9)).1 hnd
        have hk1 : row % 3 * 3 + col % 3 ∈ List.range 9 := by
          rw [List.mem_range]; omega
        have hk2 : dr * 3 + dc ∈ List.range 9 := by
          rw [List.mem_range]; omega
        have e1r : row / 3 * 3 + (row % 3 * 3 + col % 3) / 3 = row := by omega
        have e1c : col / 3 * 3 + (row % 3 * 3 + col % 3) % 3 = col := by omega
        have e2r : row / 3 * 3 + (dr * 3 + dc) / 3 = row / 3 * 3 + dr := by omega
        have e2c : col / 3 * 3 + (dr * 3 + dc) % 3 = col / 3 * 3 + dc := by omega
        have := hinj _ hk1 _ hk2 (by rw [e1r, e1c, e2r, e2c]; exact hEq)
        omega
      · left
        exact hEq

/-- C8: on a 9x9 grid of digits 1-9, `validateFullGrid` returns true exactly
when each of the 9 rows, each of the 9 columns and each of the 9
non-overlapping 3x3 boxes consists of 9 pairwise distinct values. -/
theorem validateFullGrid_iff_distinct (g : Grid) (hg : wf9 g)
    (hent : entries1to9 g) :
    validateFullGrid g = true ↔
      ((∀ r, r < 9 → (rowList g r).Nodup) ∧
       (∀ c, c < 9 → (colList g c).Nodup) ∧
       (∀ br bc, br < 3 → bc < 3 → (boxList g br bc).Nodup)) :=
  validateFullGrid_eq_true_iff g hg

theorem validateFullGrid_iff_distinct_witness :
    wf9 gridA ∧ entries1to9 gridA ∧
      (validateFullGrid gridA = true ↔
        ((∀ r, r < 9 → (rowList gridA r).Nodup) ∧
         (∀ c, c < 9 → (colList gridA c).Nodup) ∧
         (∀ br bc, br < 3 → bc < 3 → (boxList gridA br bc).Nodup))) :=
  ⟨by decide, by decide,
    validateFullGrid_iff_distinct gridA (by decide) (by decide)⟩

/-! ### Claim C10: serialisation and reconstruction -/

/-- Digits 0-9 serialise to a single (non-comma) character that parses back. -/
theorem natToStr_digit : ∀ v < 10, parseInt (natToStr v) = some v ∧
    ',' ∉ natToStr v ∧ natToStr v ≠ [] := by decide

theorem splitComma_no_comma {s : Str} (h : ',' ∉ s) : splitComma s = [s] := by
  induction s with
  | nil => rfl
  | cons c rest ih =>
    have hc : ¬(c = ',') := fun hEq => h (hEq ▸ List.mem_cons_self _ _)
    have hr : ',' ∉ rest := fun hm => h (List.mem_cons_of_mem _ hm)
    show (if c = ',' then [] :: splitComma rest
      else match splitComma rest with
        | [] => [[c]]
        | t :: ts => (c :: t) :: ts) = [c :: rest]
    rw [if_neg hc, ih hr]

theorem splitComma_append (s t : Str) (h : ',' ∉ s) :
    splitComma (s ++ ',' :: t) = s :: splitComma t := by
  induction s with
  | nil =>
    show (if ',' = ',' then [] :: splitComma t
      else match splitComma t with
        | [] => [[',']]
        | t' :: ts => (',' :: t') :: ts) = [] :: splitComma t
    rw [if_pos rfl]
  | cons c rest ih =>
    have hc : ¬(c = ',') := fun hEq => h (hEq ▸ List.mem_cons_self _ _)
    have hr : ',' ∉ rest := fun hm => h (List.mem_cons_of_mem _ hm)
    show (if c = ',' then [] :: splitComma (rest ++ ',' :: t)
      else match splitComma (rest ++ ',' :: t) with
        | [] => [[c]]
        | t' :: ts => (c :: t') :: ts) = (c :: rest) :: splitComma t
    rw [if_neg hc, ih hr]

theorem splitComma_joinComma_append (l : List Str) (t : Str) (hne : l ≠ [])
    (h : ∀ s ∈ l, ',' ∉ s) :
    splitComma (joinComma l ++ ',' :: t) = l ++ splitComma t := by
  induction l with
  | nil => exact absurd rfl hne
  | cons s rest ih =>
    cases rest with
    | nil =>
      show splitComma (s ++ ',' :: t) = [s] ++ splitComma t
      rw [splitComma_append s t (h s (List.mem_cons_self _ _))]
      rfl
    | cons s2 rest2 =>
      show splitComma ((s ++ ',' :: joinComma (s2 :: rest2)) ++ ',' :: t) = _
      rw [List.append_assoc, List.cons_append,
        splitComma_append s _ (h s (List.mem_cons_self _ _)),
        ih (by simp) (fun x hx => h x (List.mem_cons_of_mem _ hx))]
      rfl

theorem splitComma_joinComma (l : List Str) (hne : l ≠ [])
    (h : ∀ s ∈ l, ',' ∉ s) : splitComma (joinComma l) = l := by
  induction l with
  | nil => exact absurd rfl hne
  | cons s rest ih =>
    cases rest with
    | nil => exact splitComma_no_comma (h s (List.mem_cons_self _ _))
    | cons s2 rest2 =>
      show splitComma (s ++ ',' :: joinComma (s2 :: rest2)) = _
      rw [splitComma_append s _ (h s (List.mem_cons_self _ _)),
        ih (by simp) (fun x hx => h x (List.mem_cons_of_mem _ hx))]

/-- The flat token list of a grid: one decimal string per cell, row by row. -/
def gridTokens : Grid → List Str
  | [] => []
  | row :: rest => row.map natToStr ++ gridTokens rest

theorem splitComma_serializeGrid (g : Grid) (hne : g ≠ [])
    (hrows : ∀ row ∈ g, row ≠ []) (hent : entriesLe9 g) :
    splitComma (serializeGrid g) = gridTokens g := by
  induction g with
  | nil => exact absurd rfl hne
  | cons row rest ih =>
    have hcomma : ∀ s ∈ row.map natToStr, ',' ∉ s := by
      intro s hs
      obtain ⟨v, hv, hveq⟩ := List.mem_map.1 hs
      have hv9 : v < 10 := by
        have := hent row (List.mem_cons_self _ _) v hv
        omega
      exact hveq ▸ (natToStr_digit v hv9).2.1
    have hmapne : row.map natToStr ≠ [] := by
      intro hEq
      exact hrows row (List.mem_cons_self _ _) (List.map_eq_nil_iff.1 hEq)
    cases rest with
    | nil =>
      show splitComma (joinComma [joinComma (row.map natToStr)]) = _
      show splitComma (joinComma (row.map natToStr)) = _
      rw [splitComma_joinComma _ hmapne hcomma]
      show _ = row.map natToStr ++ []
      rw [List.append_nil]
    | cons row2 rest2 =>
      show splitComma (joinComma (joinComma (row.map natToStr) ::
        (row2 :: rest2).map fun r => joinComma (r.map natToStr))) = _
      show splitComma (joinComma (row.map natToStr) ++
        ',' :: joinComma ((row2 :: rest2).map fun r => joinComma (r.map natToStr))) = _
      rw [splitComma_joinComma_append _ _ hmapne hcomma]
      have ih2 := ih (by simp)
        (fun r hr => hrows r (List.mem_cons_of_mem _ hr))
        (fun r hr => hent r (List.mem_cons_of_mem _ hr))
      show row.map natToStr ++ splitComma (serializeGrid (row2 :: rest2)) = _
      rw [ih2]
      rfl

theorem buildRow_tokens (row : List Nat) (rest : List Str)
    (hent : ∀ v ∈ row, v ≤ 9) :
    buildRow row.length (row.map natToStr ++ rest) = (row, rest) := by
  induction row with
  | nil => rfl
  | cons v row' ih =>
    have hv : v < 10 := by
      have := hent v (List.mem_cons_self _ _)
      omega
    show buildRow (row'.length + 1) (natToStr v :: (row'.map natToStr ++ rest)) = _
    have hshift : shiftParse (natToStr v :: (row'.map natToStr ++ rest)) =
        (v, row'.map natToStr ++ rest) := by
      show ((parseInt (natToStr v)).getD 0, _) = _
      rw [(natToStr_digit v hv).1]
      rfl
    unfold buildRow
    rw [hshift]
    simp only
    rw [ih (fun x hx => hent x (List.mem_cons_of_mem _ hx))]

theorem buildRows_tokens (g : Grid) (rest : List Str)
    (hrows : ∀ row ∈ g, row.length = 9) (hent : entriesLe9 g) :
    buildRows g.length (gridTokens g ++ rest) = g := by
  induction g with
  | nil => rfl
  | cons row g' ih =>
    show buildRows (g'.length + 1) ((row.map natToStr ++ gridTokens g') ++ rest) = _
    have hlen : row.length = 9 := hrows row (List.mem_cons_self _ _)
    unfold buildRows
    rw [List.append_assoc, ← hlen,
      buildRow_tokens row _ (fun v hv => hent row (List.mem_cons_self _ _) v hv)]
    simp only
    rw [ih (fun r hr => hrows r (List.mem_cons_of_mem _ hr))
      (fun r hr => hent r (List.mem_cons_of_mem _ hr))]

theorem serializeGrid_left_inverse (g : Grid) (hg : wf9 g)
    (hent : entriesLe9 g) : gridPrimitiveToArray (serializeGrid g) = g := by
  have hrowsne : ∀ row ∈ g, row ≠ [] := by
    intro row hrow hEq
    have := hg.2 row hrow
    rw [hEq] at this
    simp at this
  have hgne : g ≠ [] := by
    intro hEq
    have := hg.1
    rw [hEq] at this
    simp at this
  unfold gridPrimitiveToArray
  rw [splitComma_serializeGrid g hgne hrowsne hent]
  have h9 : g.length = 9 := hg.1
  have := buildRows_tokens g [] (fun row hrow => hg.2 row hrow) hent
  rw [List.append_nil] at this
  rw [← h9, this]

/-- C10: reconstructing the comma-separated serialisation of any 9x9 grid of
digits yields the original grid — `gridPrimitiveToArray` is a left inverse of
the `${grid}` serialisation the solver performs at its moment of success. -/
theorem gridPrimitiveToArray_serializeGrid (g : Grid) (hg : wf9 g)
    (hent : entriesLe9 g) : gridPrimitiveToArray (serializeGrid g) = g :=
  serializeGrid_left_inverse g hg hent

theorem gridPrimitiveToArray_serializeGrid_witness :
    wf9 gridA ∧ entriesLe9 gridA ∧
      gridPrimitiveToArray (serializeGrid gridA) = gridA :=
  ⟨by decide, by decide,
    gridPrimitiveToArray_serializeGrid gridA (by decide) (by decide)⟩

/-! ### Claim C9: termination and depth bound -/

theorem countZeros_le (g : Grid) : countZeros g ≤ 81 := by
  have := List.length_filter_le (fun i => cell g (i / 9) (i % 9) == 0) (List.range 81)
  simpa [countZeros] using this

theorem countZeros_eq_countP (g : Grid) :
    countZeros g = (List.range 81).countP fun i => cell g (i / 9) (i % 9) == 0 := by
  rw [countZeros, List.countP_eq_length_filter]

theorem countZeros_setCell {g : Grid} (hg : wf9 g) {r c : Nat} (hr : r < 9)
    (hc : c < 9) (hcell : cell g r c = 0) {v : Nat} (hv : v ≠ 0) :
    countZeros (setCell g r c v) + 1 = countZeros g := by
  have hrg : r < g.length := by rw [hg.1]; exact hr
  have hclen : c < (g.getD r []).length := by
    rw [hg.2 _ (getD_mem_of_lt g r hrg)]; exact hc
  set i0 := r * 9 + c with hi0
  have hi0mem : i0 ∈ List.range 81 := List.mem_range.2 (by omega)
  have hperm := List.perm_cons_erase hi0mem
  have hnd := List.nodup_range 81
  have hi0r : i0 / 9 = r := by omega
  have hi0c : i0 % 9 = c := by omega
  have hcongr : ((List.range 81).erase i0).countP
        (fun i => cell (setCell g r c v) (i / 9) (i % 9) == 0) =
      ((List.range 81).erase i0).countP (fun i => cell g (i / 9) (i % 9) == 0) := by
    refine List.countP_congr ?_
    intro i hi
    have hine : i ≠ i0 := ((hnd.mem_erase_iff).1 hi).1
    have hirange : i ∈ List.range 81 := ((hnd.mem_erase_iff).1 hi).2
    have hi81 : i < 81 := List.mem_range.1 hirange
    have hne : r ≠ i / 9 ∨ c ≠ i % 9 := by
      by_contra hcontra
      push_neg at hcontra
      omega
    rw [cell_setCell_ne g r c v (i / 9) (i % 9) hne]
  have h1 : countZeros (setCell g r c v) =
      (i0 :: (List.range 81).erase i0).countP
        (fun i => cell (setCell g r c v) (i / 9) (i % 9) == 0) := by
    rw [countZeros_eq_countP]
    exact hperm.countP_eq _
  have h2 : countZeros g =
      (i0 :: (List.range 81).erase i0).countP
        (fun i => cell g (i / 9) (i % 9) == 0) := by
    rw [countZeros_eq_countP]
    exact hperm.countP_eq _
  rw [h1, h2, List.countP_cons, List.countP_cons]
  have hv0 : cell (setCell g r c v) (i0 / 9) (i0 % 9) = v := by
    rw [hi0r, hi0c]
    exact cell_setCell_self g r c v hrg hclen
  have hz : cell g (i0 / 9) (i0 % 9) = 0 := by rw [hi0r, hi0c]; exact hcell
  simp only [hv0, hz, beq_iff_eq, hcongr]
  simp [hv]

theorem countZeros_pos {g : Grid} {r c : Nat} (hf : findEmpty g = some (r, c)) :
    0 < countZeros g := by
  obtain ⟨hr, hc, hcell⟩ := findEmpty_some hf
  rw [countZeros]
  have hmem : r * 9 + c ∈ (List.range 81).filter
      fun i => cell g (i / 9) (i % 9) == 0 := by
    rw [List.mem_filter]
    refine ⟨List.mem_range.2 (by omega), ?_⟩
    have h1 : (r * 9 + c) / 9 = r := by omega
    have h2 : (r * 9 + c) % 9 = c := by omega
    rw [h1, h2]
    simpa using hcell
  exact List.length_pos_of_mem hmem

theorem foldl_congr_inv {α β : Type} (f f' : β → α → β) (P : β → Prop)
    (l : List α) (init : β) (h0 : P init)
    (hstep : ∀ b a, a ∈ l → P b → f b a = f' b a ∧ P (f b a)) :
    l.foldl f init = l.foldl f' init ∧ P (l.foldl f init) := by
  induction l generalizing init with
  | nil => exact ⟨rfl, h0⟩
  | cons a t iht =>
    obtain ⟨heq, hP⟩ := hstep init a (by simp) h0
    have := iht (f init a) hP (fun b x hx hb => hstep b x (by simp [hx]) hb)
    rw [List.foldl_cons, List.foldl_cons, ← heq]
    exact this

/-- Any two fuels strictly above the number of empty cells give the same
outcome: the recursion needs at most one level per empty cell. -/
theorem solveGridFuel_fuel_irrel : ∀ (n : Nat) (g : Grid) (prim : Option Str)
    (f1 f2 : Nat), wf9 g → countZeros g = n → n < f1 → n < f2 →
    solveGridFuel f1 g prim = solveGridFuel f2 g prim := by
  intro n
  induction n using Nat.strong_induction_on with
  | _ n ih =>
    intro g prim f1 f2 hg hcz h1 h2
    cases f1 with
    | zero => omega
    | succ f1' =>
      cases f2 with
      | zero => omega
      | succ f2' =>
        show solveStep (solveGridFuel f1') g prim = solveStep (solveGridFuel f2') g prim
        unfold solveStep
        cases hf : findEmpty g with
        | none => rfl
        | some rc =>
          obtain ⟨r, c⟩ := rc
          obtain ⟨hr, hc, hcell⟩ := findEmpty_some hf
          have hpos : 0 < countZeros g := countZeros_pos hf
          simp only
          have hfold := foldl_congr_inv
            (fun (st : Grid × Option Str) k =>
              if isValidPlacement st.1 (k + 1) r c then
                ((setCell (solveGridFuel f1' (setCell st.1 r c (k + 1)) st.2).grid r c 0),
                  (solveGridFuel f1' (setCell st.1 r c (k + 1)) st.2).prim)
              else st)
            (fun (st : Grid × Option Str) k =>
              if isValidPlacement st.1 (k + 1) r c then
                ((setCell (solveGridFuel f2' (setCell st.1 r c (k + 1)) st.2).grid r c 0),
                  (solveGridFuel f2' (setCell st.1 r c (k + 1)) st.2).prim)
              else st)
            (fun st => st.1 = g) (List.range 9) (g, prim) rfl ?_
          · rw [hfold.1]
          · intro st k _ hst
            by_cases hvalid : isValidPlacement st.1 (k + 1) r c
            · simp only [hvalid, if_true]
              have hzdec : countZeros (setCell st.1 r c (k + 1)) + 1 = countZeros g := by
                rw [hst]
                exact countZeros_setCell hg hr hc hcell (by omega)
              have hrec := ih (countZeros (setCell st.1 r c (k + 1))) (by omega)
                (setCell st.1 r c (k + 1)) st.2 f1' f2'
                (hst ▸ wf9_setCell hg r c (k + 1)) rfl (by omega) (by omega)
              rw [hrec]
              refine ⟨rfl, ?_⟩
              rw [solveGridFuel_grid, hst]
              exact setCell_of_cell_zero g r c (k + 1) hcell
            · simp only [hvalid, if_false]
              exact ⟨rfl, hst⟩

/-- C9: the solver's recursion is well-founded and shallow. A 9x9 grid has at
most 81 empty cells; every recursive call is made on a grid with strictly
fewer empty cells (the tried cell has just been filled); and consequently any
recursion budget of 82 or more — one frame per grid cell plus the final check
— gives the same outcome, i.e. the search terminates within depth 82. -/
theorem solveGrid_depth_bounded (g : Grid) (prim : Option Str) (fuel : Nat)
    (hg : wf9 g) :
    countZeros g ≤ 81 ∧
    (∀ r c v, findEmpty g = some (r, c) → v ≠ 0 →
      countZeros (setCell g r c v) < countZeros g) ∧
    (82 ≤ fuel → solveGridFuel fuel g prim = solveGrid g prim) := by
  refine ⟨countZeros_le g, ?_, ?_⟩
  · intro r c v hf hv
    obtain ⟨hr, hc, hcell⟩ := findEmpty_some hf
    have := countZeros_setCell hg hr hc hcell hv
    omega
  · intro hfuel
    have hle := countZeros_le g
    exact solveGridFuel_fuel_irrel (countZeros g) g prim fuel 82 hg rfl
      (by omega) (by omega)

theorem solveGrid_depth_bounded_witness :
    wf9 gridA0 ∧
      (countZeros gridA0 ≤ 81 ∧
       (∀ r c v, findEmpty gridA0 = some (r, c) → v ≠ 0 →
         countZeros (setCell gridA0 r c v) < countZeros gridA0) ∧
       (82 ≤ 100 → solveGridFuel 100 gridA0 none = solveGrid gridA0 none)) :=
  ⟨by decide, solveGrid_depth_bounded gridA0 none 100 (by decide)⟩

/-! ### Claims C5 and C6: the shape of grids returned by `getGridSolution` -/

theorem cell_in_1to9 {g : Grid} (hg : wf9 g) (hent : entries1to9 g) {r c : Nat}
    (hr : r < 9) (hc : c < 9) : 1 ≤ cell g r c ∧ cell g r c ≤ 9 :=
  hent _ (getD_mem_of_lt g r (by rw [hg.1]; exact hr)) _ (cell_mem_row hg hr hc)

/-- A grid in which the row-major scan finds no 0 has all entries 1-9,
provided the entries were digits to begin with. -/
theorem entries1to9_of_full {g : Grid} (hg : wf9 g) (hent : entriesLe9 g)
    (hfull : findEmpty g = none) : entries1to9 g := by
  intro row hrow v hv
  obtain ⟨r, hrlen, hreq⟩ := List.mem_iff_getElem.1 hrow
  have hr9 : r < 9 := by have := hg.1; omega
  have hrowD : g.getD r [] = row := by
    rw [List.getD_eq_getElem?_getD, List.getElem?_eq_getElem hrlen]
    simpa using hreq
  obtain ⟨c, hclen, hceq⟩ := List.mem_iff_getElem.1 hv
  have hc9 : c < 9 := by
    have := hg.2 row hrow
    omega
  have hcell : cell g r c = v := by
    unfold cell
    rw [hrowD, List.getD_eq_getElem?_getD, List.getElem?_eq_getElem hclen]
    simpa using hceq
  have hne := findEmpty_none hfull r c hr9 hc9
  rw [hcell] at hne
  have hle : v ≤ 9 := hent row hrow v hv
  omega

/-- A completely filled grid of digits has no cell for the scan to find. -/
theorem findEmpty_eq_none_of_full {g : Grid} (hg : wf9 g)
    (hent : entries1to9 g) : findEmpty g = none := by
  unfold findEmpty
  rw [List.find?_eq_none]
  intro rc hmem
  simp only [List.mem_map, List.mem_range] at hmem
  obtain ⟨i, hi, hieq⟩ := hmem
  subst hieq
  show ¬(cell g (i / 9) (i % 9) == 0) = true
  have hr : i / 9 < 9 := by omega
  have hc : i % 9 < 9 := by omega
  have h1 := (cell_in_1to9 hg hent hr hc).1
  simp only [beq_iff_eq]
  omega

/-- The central storage invariant: if a grid property `G` is preserved by
filling an empty cell with a digit 1-9, then across a `solveGrid` call
`gridPrimitive` is either untouched or holds the serialisation of a completely
filled grid satisfying `G`. -/
theorem solveGridFuel_stores_full (G : Grid → Prop)
    (hset : ∀ h r c v, G h → r < 9 → c < 9 → cell h r c = 0 → 1 ≤ v → v ≤ 9 →
      G (setCell h r c v)) :
    ∀ (fuel : Nat) (g : Grid) (prim : Option Str), G g →
    (prim = none ∨
      ∃ g2, G g2 ∧ findEmpty g2 = none ∧ prim = some (serializeGrid g2)) →
    ((solveGridFuel fuel g prim).prim = none ∨
      ∃ g2, G g2 ∧ findEmpty g2 = none ∧
        (solveGridFuel fuel g prim).prim = some (serializeGrid g2)) := by
  intro fuel
  induction fuel with
  | zero => intro g prim _ hprim; exact hprim
  | succ fuel ih =>
    intro g prim hG hprim
    show (solveStep (solveGridFuel fuel) g prim).prim = none ∨
      ∃ g2, G g2 ∧ findEmpty g2 = none ∧
        (solveStep (solveGridFuel fuel) g prim).prim = some (serializeGrid g2)
    unfold solveStep
    cases hf : findEmpty g with
    | none => exact Or.inr ⟨g, hG, hf, rfl⟩
    | some rc =>
      obtain ⟨r, c⟩ := rc
      obtain ⟨hr, hc, hcell⟩ := findEmpty_some hf
      simp only
      refine (foldl_induction _
        (fun st : Grid × Option Str => st.1 = g ∧
          (st.2 = none ∨
            ∃ g2, G g2 ∧ findEmpty g2 = none ∧ st.2 = some (serializeGrid g2)))
        (List.range 9) (g, prim) ⟨rfl, hprim⟩ ?_).2
      intro st k hk hst
      rw [List.mem_range] at hk
      by_cases hvalid : isValidPlacement st.1 (k + 1) r c
      · simp only [hvalid, if_true]
        have hGst : G st.1 := by rw [hst.1]; exact hG
        have hcellst : cell st.1 r c = 0 := by rw [hst.1]; exact hcell
        refine ⟨?_, ?_⟩
        · rw [solveGridFuel_grid, hst.1]
          exact setCell_of_cell_zero g r c (k + 1) hcell
        · exact ih (setCell st.1 r c (k + 1)) st.2
            (hset st.1 r c (k + 1) hGst hr hc hcellst (by omega) (by omega))
            hst.2
      · simp only [hvalid, if_false]
        exact hst

/-- Unpacking a successful `getGridSolution` call: the snapshot exists, the
result is its reconstruction, and the reconstruction passed the validator. -/
theorem getGridSolution_some_parts {g : Grid} {prim : Option Str} {s : Grid}
    (h : (getGridSolution g prim).1 = some s) :
    ∃ str, (solveGrid g prim).prim = some str ∧
      s = gridPrimitiveToArray str ∧ validateFullGrid s = true := by
  simp only [getGridSolution] at h
  cases hp : (solveGrid g prim).prim with
  | none =>
    rw [hp] at h
    simp [jsFalsy] at h
  | some str =>
    rw [hp] at h
    by_cases hemp : str.isEmpty
    · simp [jsFalsy, hemp] at h
    · by_cases hval : validateFullGrid (gridPrimitiveToArray str) = true
      · simp only [jsFalsy, hemp, Bool.false_eq_true, if_false, Option.getD_some,
          hval, if_true] at h
        have hs : gridPrimitiveToArray str = s := by simpa using h
        exact ⟨str, rfl, hs.symm, hs ▸ hval⟩
      · simp [jsFalsy, hemp, hval] at h

theorem nodup_count_one {l : List Nat} (hlen : l.length = 9) (hnd : l.Nodup)
    (hmem : ∀ v ∈ l, 1 ≤ v ∧ v ≤ 9) :
    ∀ d, 1 ≤ d → d ≤ 9 → l.count d = 1 := by
  intro d hd1 hd9
  have hsub : l.toFinset ⊆ Finset.Icc 1 9 := by
    intro x hx
    rw [List.mem_toFinset] at hx
    exact Finset.mem_Icc.2 (hmem x hx)
  have hcard : l.toFinset.card = 9 := by
    rw [List.toFinset_card_of_nodup hnd, hlen]
  have hicc : (Finset.Icc 1 9 : Finset Nat).card = 9 := by
    rw [Nat.card_Icc]
  have heq : l.toFinset = Finset.Icc 1 9 :=
    Finset.eq_of_subset_of_card_le hsub (by omega)
  have hdmem : d ∈ l := by
    rw [← List.mem_toFinset, heq]
    exact Finset.mem_Icc.2 ⟨hd1, hd9⟩
  have hle := List.nodup_iff_count_le_one.1 hnd d
  have hge := List.count_pos_iff.2 hdmem
  omega

theorem getGridSolution_valid_core {g : Grid} {prim : Option Str} {s : Grid}
    (hg : wf9 g) (hent : entriesLe9 g) (hprim : primOK prim)
    (hres : (getGridSolution g prim).1 = some s) :
    wf9 s ∧ entries1to9 s ∧ validateFullGrid s = true := by
  obtain ⟨str, hstr, hsdef, hval⟩ := getGridSolution_some_parts hres
  have hinit : prim = none ∨
      ∃ g2, (wf9 g2 ∧ entriesLe9 g2) ∧ findEmpty g2 = none ∧
        prim = some (serializeGrid g2) := by
    rcases hprim with hnone | ⟨g2, hwf2, h192, heq2⟩
    · exact Or.inl hnone
    · refine Or.inr ⟨g2, ⟨hwf2, fun row hrow v hv => (h192 row hrow v hv).2⟩,
        findEmpty_eq_none_of_full hwf2 h192, heq2⟩
  have hinv := solveGridFuel_stores_full (fun h => wf9 h ∧ entriesLe9 h)
    (fun h r c v hG _ _ _ _ hv9 => ⟨wf9_setCell hG.1 r c v,
      entriesLe9_setCell hG.2 hv9 r c⟩)
    82 g prim ⟨hg, hent⟩ hinit
  have hstr' : (solveGridFuel 82 g prim).prim = some str := hstr
  rcases hinv with hnone | ⟨g2, ⟨hwf2, hent2⟩, hfull2, heq⟩
  · rw [hstr'] at hnone
    cases hnone
  · rw [hstr'] at heq
    have hstr2 : str = serializeGrid g2 := Option.some.inj heq
    have h19 : entries1to9 g2 := entries1to9_of_full hwf2 hent2 hfull2
    have hs2 : s = g2 := by
      rw [hsdef, hstr2, serializeGrid_left_inverse g2 hwf2 hent2]
    subst hs2
    exact ⟨hwf2, h19, hval⟩

/-- C5: every grid returned by `getGridSolution` — in any process state
`gridPrimitive` can actually reach — is a fully solved 9x9 matrix of digits
1-9 (no empty sentinel anywhere) in which every row, every column and every
3x3 box contains each digit 1-9 exactly once. -/
theorem getGridSolution_solution_valid (g : Grid) (prim : Option Str) (s : Grid)
    (hg : wf9 g) (hent : entriesLe9 g) (hprim : primOK prim)
    (hres : (getGridSolution g prim).1 = some s) :
    wf9 s ∧ entries1to9 s ∧
    (∀ r, r < 9 → ∀ d, 1 ≤ d → d ≤ 9 → (rowList s r).count d = 1) ∧
    (∀ c, c < 9 → ∀ d, 1 ≤ d → d ≤ 9 → (colList s c).count d = 1) ∧
    (∀ br bc, br < 3 → bc < 3 → ∀ d, 1 ≤ d → d ≤ 9 →
      (boxList s br bc).count d = 1) := by
  obtain ⟨hwfs, h19s, hvals⟩ := getGridSolution_valid_core hg hent hprim hres
  obtain ⟨hrows, hcols, hboxes⟩ := (validateFullGrid_eq_true_iff s hwfs).1 hvals
  refine ⟨hwfs, h19s, ?_, ?_, ?_⟩
  · intro r hr d hd1 hd9
    refine nodup_count_one (rowList_length hwfs hr) (hrows r hr) ?_ d hd1 hd9
    intro v hv
    exact h19s _ (getD_mem_of_lt s r (by rw [hwfs.1]; exact hr)) v hv
  · intro c hc d hd1 hd9
    refine nodup_count_one (by simp [colList]) (hcols c hc) ?_ d hd1 hd9
    intro v hv
    obtain ⟨i, hi, hieq⟩ := List.mem_map.1 hv
    rw [List.mem_range] at hi
    rw [← hieq]
    exact cell_in_1to9 hwfs h19s hi hc
  · intro br bc hbr hbc d hd1 hd9
    refine nodup_count_one (by simp [boxList]) (hboxes br bc hbr hbc) ?_ d hd1 hd9
    intro v hv
    obtain ⟨k, hk, hkeq⟩ := List.mem_map.1 hv
    rw [List.mem_range] at hk
    rw [← hkeq]
    exact cell_in_1to9 hwfs h19s (by omega) (by omega)

theorem getGridSolution_solution_valid_witness :
    wf9 gridA ∧ entriesLe9 gridA ∧ primOK none ∧
      (getGridSolution gridA none).1 = some gridA ∧
      (wf9 gridA ∧ entries1to9 gridA ∧
       (∀ r, r < 9 → ∀ d, 1 ≤ d → d ≤ 9 → (rowList gridA r).count d = 1) ∧
       (∀ c, c < 9 → ∀ d, 1 ≤ d → d ≤ 9 → (colList gridA c).count d = 1) ∧
       (∀ br bc, br < 3 → bc < 3 → ∀ d, 1 ≤ d → d ≤ 9 →
         (boxList gridA br bc).count d = 1)) :=
  ⟨by decide, by decide, Or.inl rfl, by decide,
    getGridSolution_solution_valid gridA none gridA (by decide) (by decide)
      (Or.inl rfl) (by decide)⟩

/-- C6 (amended): clue preservation holds for the solution this call itself
computed — in particular whenever `gridPrimitive` is unset at call time (fresh
module state). It fails only through the stale-snapshot path shown in the
counterexample, where the returned grid comes from an earlier call. -/
theorem getGridSolution_preserves_clues_fresh (g s : Grid) (hg : wf9 g)
    (hent : entriesLe9 g) (hres : (getGridSolution g none).1 = some s) :
    ∀ r c, r < 9 → c < 9 → cell g r c ≠ 0 → cell s r c = cell g r c := by
  obtain ⟨str, hstr, hsdef, hval⟩ := getGridSolution_some_parts hres
  have hinv := solveGridFuel_stores_full
    (fun h => (wf9 h ∧ entriesLe9 h) ∧
      ∀ r c, r < 9 → c < 9 → cell g r c ≠ 0 → cell h r c = cell g r c)
    ?_ 82 g none ⟨⟨hg, hent⟩, fun r c _ _ _ => rfl⟩ (Or.inl rfl)
  · have hstr' : (solveGridFuel 82 g none).prim = some str := hstr
    rcases hinv with hnone | ⟨g2, ⟨⟨hwf2, hent2⟩, hcp⟩, hfull2, heq⟩
    · rw [hstr'] at hnone
      cases hnone
    · rw [hstr'] at heq
      have hstr2 : str = serializeGrid g2 := Option.some.inj heq
      have hs2 : s = g2 := by
        rw [hsdef, hstr2, serializeGrid_left_inverse g2 hwf2 hent2]
      subst hs2
      exact hcp
  · intro h r c v hG hr hc hcell hv1 hv9
    obtain ⟨⟨hwf, henth⟩, hcp⟩ := hG
    refine ⟨⟨wf9_setCell hwf r c v, entriesLe9_setCell henth (by omega) r c⟩, ?_⟩
    intro r' c' hr' hc' hne0
    by_cases hrr : r = r'
    · by_cases hcc : c = c'
      · exfalso
        have := hcp r' c' hr' hc' hne0
        rw [← hrr, ← hcc] at this
        rw [hcell] at this
        rw [← hrr, ← hcc] at hne0
        exact hne0 this.symm
      · rw [cell_setCell_ne h r c v r' c' (Or.inr hcc)]
        exact hcp r' c' hr' hc' hne0
    · rw [cell_setCell_ne h r c v r' c' (Or.inl hrr)]
      exact hcp r' c' hr' hc' hne0

theorem getGridSolution_preserves_clues_fresh_witness :
    wf9 gridA ∧ entriesLe9 gridA ∧ (getGridSolution gridA none).1 = some gridA ∧
      (∀ r c, r < 9 → c < 9 → cell gridA r c ≠ 0 →
        cell gridA r c = cell gridA r c) :=
  ⟨by decide, by decide, by decide,
    getGridSolution_preserves_clues_fresh gridA gridA (by decide) (by decide)
      (by decide)⟩

end SudokuSolver
